import Mathlib

/-!
# Bin Bot: which bins are due, and what the notification says

A shallow embedding of the date reasoning and message composition of
`src/index.js` (the web service, namespace `BinBot.Index`) and of
`src/lambda/index.js` (the scheduled job, namespace `BinBot.Lambda`).

Modelling conventions, shared by both files:

* A JavaScript `Date` is a `Moment`: the milliseconds of local wall-clock time
  elapsed since local midnight of 1 January 1970.  The local zone has a fixed
  offset from UTC (no daylight-saving change), so every local day is 24 hours
  and `getTimezoneOffset` is the same for all dates.
* `new Date()` is the injected parameter `now`; all readings of the clock
  within one invocation return the same moment.
* `toLocaleDateString("en-GB")` renders the local calendar day as `dd/mm/yyyy`.
  The code only ever compares two such strings for equality, and the rendering
  is one-to-one on calendar days, so the model returns the day itself, as the
  number of days since 1 January 1970.
* `toISOString()` followed by `new Date(iso)` or date-fns `parse(iso)` returns
  the same instant (millisecond precision), so an ISO string is modelled by the
  `Moment` it denotes; `toISOString()` on an Invalid Date throws `RangeError`.
* `new Date(text)` on text that is not in the ISO format is left to the engine
  by ECMAScript.  It is the parameter `newDate` of every function that reaches
  it, applied to the very text the template literal builds; `none` is an
  Invalid Date.  The general theorems hold for every such reader; a theorem
  about one feed states what it takes the engine to read.
* The functions of the date-fns library (version 1: `addDays`, `isAfter`,
  `distanceInWordsStrict` and what it calls) are modelled from the library.
* A thrown exception is `Except.error`.
-/

namespace BinBot

/-! ## JavaScript values -/

/-- Failures raised by the JavaScript code. -/
inductive JsError where
  /-- A property read or method call on `undefined`. -/
  | typeError
  /-- The call `toISOString()` on an Invalid Date. -/
  | rangeError
  /-- A value made by `new Error(message)`. -/
  | error (message : String)
deriving DecidableEq

deriving instance DecidableEq for Except

/-- A `Date`: milliseconds of local wall-clock time since local midnight, 1 January 1970. -/
abbrev Moment := Int

/-- The call `d.toLocaleDateString("en-GB")`: the local calendar day of `d`, as a day number. -/
def toLocaleDateString (d : Moment) : Int := d / 86400000

/-- Milliseconds elapsed since local midnight of the day of `d`. -/
def timeOfDay (d : Moment) : Int := d % 86400000

/-- ECMAScript `DayFromYear`: the day number of 1 January of year `y`. -/
def dayFromYear (y : Int) : Int :=
  365 * (y - 1970) + (y - 1969) / 4 - (y - 1901) / 100 + (y - 1601) / 400

/-- ECMAScript `InLeapYear`. -/
def inLeapYear (y : Int) : Bool :=
  (y % 4 == 0 && y % 100 != 0) || y % 400 == 0

/-- Days of the year before the first of month `monthIndex` (0 is January). -/
def daysBeforeMonth (leap : Bool) (monthIndex : Nat) : Int :=
  let l : Int := if leap then 1 else 0
  match monthIndex with
  | 0 => 0
  | 1 => 31
  | 2 => 59 + l
  | 3 => 90 + l
  | 4 => 120 + l
  | 5 => 151 + l
  | 6 => 181 + l
  | 7 => 212 + l
  | 8 => 243 + l
  | 9 => 273 + l
  | 10 => 304 + l
  | _ => 334 + l

/-- ECMAScript `MakeDay(year, monthIndex, date)` for `monthIndex` in 0..11; a `date` past the end
of the month runs on into the next month. -/
def makeDay (year : Int) (monthIndex : Nat) (date : Int) : Int :=
  dayFromYear year + daysBeforeMonth (inLeapYear year) monthIndex + (date - 1)

/-- The constructor `new Date(year, monthIndex, date, hours, minutes, seconds, ms)`. -/
def mkDate (year : Int) (monthIndex : Nat) (date hours minutes seconds ms : Int) : Moment :=
  makeDay year monthIndex date * 86400000 + ((hours * 60 + minutes) * 60 + seconds) * 1000 + ms

/-- The expression `new Date(d.getFullYear(), d.getMonth(), d.getDate(), hours, minutes, seconds, ms)`:
the local day of `d` at the given time of day. -/
def atTimeOfDay (d : Moment) (hours minutes seconds ms : Int) : Moment :=
  toLocaleDateString d * 86400000 + ((hours * 60 + minutes) * 60 + seconds) * 1000 + ms

/-! ## date-fns (version 1) -/

/-- The date-fns `addDays(date, amount)`: `setDate(getDate() + amount)`, same local time of day. -/
def addDays (d : Moment) (amount : Int) : Moment := d + amount * 86400000

/-- The date-fns `isAfter(date, dateToCompare)`: `date.getTime() > dateToCompare.getTime()`. -/
def isAfter (date dateToCompare : Moment) : Bool := decide (date > dateToCompare)

/-- The date-fns `compareDesc`: `-1` when the first date is later, `1` when it is earlier. -/
def compareDesc (dateLeft dateRight : Moment) : Int :=
  if dateLeft > dateRight then -1 else if dateLeft < dateRight then 1 else 0

/-- The date-fns `differenceInSeconds`: the millisecond difference over 1000, rounded towards zero
(`Math.floor` when positive, `Math.ceil` otherwise). -/
def differenceInSeconds (dateLeft dateRight : Moment) : Int :=
  let diff := dateLeft - dateRight
  if diff > 0 then diff / 1000 else -((-diff) / 1000)

/-- The English locale of date-fns, token `xDays`: `one` is "1 day", `other` is the count followed by " days". -/
def localizeXDays (count : Int) : String :=
  if count = 1 then "1 day" else toString count ++ " days"

/-- The number of whole days that `distanceInWordsStrict` reports with the option `unit: "d"` and
the default `partialMethod` (`Math.floor`): whole seconds between the earlier and the later date,
then whole minutes, then whole blocks of 1440 minutes. -/
def distanceInDays (dateToCompare date : Moment) : Int :=
  let comparison := compareDesc dateToCompare date
  let dateLeft := if comparison > 0 then dateToCompare else date
  let dateRight := if comparison > 0 then date else dateToCompare
  let seconds := differenceInSeconds dateRight dateLeft
  let minutes := seconds / 60
  minutes / 1440

/-- The date-fns `distanceInWordsStrict(dateToCompare, date, {unit: "d"})`. -/
def distanceInWordsStrict (dateToCompare date : Moment) : String :=
  localizeXDays (distanceInDays dateToCompare date)

/-! ## Strings -/

/-- Whether the characters `p` start the characters `s`. -/
def startsWith : List Char → List Char → Bool
  | [], _ => true
  | _ :: _, [] => false
  | p :: ps, c :: cs => p == c && startsWith ps cs

/-- Worker of `split`: `skip` counts the characters of a separator still to pass over, `cur` holds
the characters of the current piece, last first. -/
def splitAux (sep : List Char) : List Char → Nat → List Char → List String
  | [], _, cur => [String.mk cur.reverse]
  | _ :: cs, skip + 1, cur => splitAux sep cs skip cur
  | c :: cs, 0, cur =>
    if startsWith sep (c :: cs) then
      String.mk cur.reverse :: splitAux sep cs (sep.length - 1) []
    else
      splitAux sep cs 0 (c :: cur)

/-- JavaScript `s.split(sep)` for a non-empty separator string. -/
def split (s sep : String) : List String := splitAux sep.data s.data 0 []

/-- The match of `/^[0-9]*/` rendered in a template literal: the leading decimal digits. -/
def leadingDigits (s : String) : String := String.mk (s.data.takeWhile Char.isDigit)

/-- The class `\w` of JavaScript regular expressions. -/
def isWordChar (c : Char) : Bool := c.isAlphanum || c == '_'

/-- The call `s.replace(/^\w/, char => char.toUpperCase())`. -/
def capitalise (s : String) : String :=
  match s.data with
  | [] => s
  | c :: cs => if isWordChar c then String.mk (c.toUpper :: cs) else s

/-- JavaScript `toLowerCase()` on the ASCII labels the code produces. -/
def toLowerCase (s : String) : String := String.mk (s.data.map Char.toLower)

/-! ## The text handed to the `Date` constructor -/

/-- A value inside a template literal: `undefined` prints as the word. -/
def interpolate : Option String → String
  | some text => text
  | none => "undefined"

/-- The template literal `${month} ${dayNumber}, ${year} 23:00:00` of `getCollectionDate` and of
`getBinDates`; `month` and `year` are `none` when the title has no piece at their position. -/
def dateText (month : Option String) (dayNumber : String) (year : Option String) : String :=
  interpolate month ++ " " ++ dayNumber ++ ", " ++ interpolate year ++ " 23:00:00"

/-- Value of a run of decimal digits. -/
def digitsValue (ds : List Char) : Nat := ds.foldl (fun n c => 10 * n + (c.toNat - 48)) 0

/-- Month index (0 is January) of an English month name or of its three-letter abbreviation,
whatever the case of the letters. -/
def monthIndex (name : String) : Option Nat :=
  let key := String.mk (name.data.map Char.toLower)
  if key = "jan" ∨ key = "january" then some 0
  else if key = "feb" ∨ key = "february" then some 1
  else if key = "mar" ∨ key = "march" then some 2
  else if key = "apr" ∨ key = "april" then some 3
  else if key = "may" then some 4
  else if key = "jun" ∨ key = "june" then some 5
  else if key = "jul" ∨ key = "july" then some 6
  else if key = "aug" ∨ key = "august" then some 7
  else if key = "sep" ∨ key = "september" then some 8
  else if key = "oct" ∨ key = "october" then some 9
  else if key = "nov" ∨ key = "november" then some 10
  else if key = "dec" ∨ key = "december" then some 11
  else none

/-- A reader of calendar texts, used to run the code on concrete feeds.  It reads exactly the texts
`<month> <day>, <year> 23:00:00` where `<month>` is an English month name or its abbreviation,
`<day>` is one or two digits worth 1 to 31 and `<year>` is four digits, the first not `0`, as
23:00:00.000 local time on that date, the way the engines do; it gives `none` on every other text,
including texts that an engine does read. -/
def readCalendarText (text : String) : Option Moment :=
  match split text " " with
  | [month, day, year, time] =>
    match monthIndex month with
    | none => none
    | some mi =>
      let digits := day.data.takeWhile Char.isDigit
      let d := digitsValue digits
      if day.data = digits ++ [','] ∧ 1 ≤ digits.length ∧ digits.length ≤ 2 ∧ 1 ≤ d ∧ d ≤ 31
          ∧ year.data.length = 4 ∧ year.data.all Char.isDigit ∧ 1000 ≤ digitsValue year.data
          ∧ time = "23:00:00" then
        some (mkDate (digitsValue year.data) mi d 23 0 0 0)
      else none
  | _ => none

/-! ## `src/index.js` -/

namespace Index

/-- Source `binIsDue` (`src/index.js`, lines 40-56). -/
def binIsDue (now : Moment) (collectionISODate : Moment) : Bool :=
  let today := now
  let tomorrow := addDays today 1
  let todaysDate := toLocaleDateString today
  let binCollectionTimeHasPassed := isAfter today (atTimeOfDay today 21 11 0 0)
  let tomorrowsDate := toLocaleDateString tomorrow
  let collectionDate := toLocaleDateString collectionISODate
  if tomorrowsDate == collectionDate then true
  else if todaysDate == collectionDate && !binCollectionTimeHasPassed then true
  else false

/-- Source `getCollectionDate` (`src/index.js`, lines 58-67).  `dateParts[1].match` throws a
`TypeError` when the title has no second piece; `toISOString` throws a `RangeError` on an
Invalid Date. -/
def getCollectionDate (newDate : String → Option Moment) (collectionDate : String) :
    Except JsError Moment :=
  let dateParts := split collectionDate " "
  match dateParts[1]? with
  | none => .error .typeError
  | some part =>
    let dayNumber := leadingDigits part
    let month := dateParts[2]?
    let year := dateParts[3]?
    match newDate (dateText month dayNumber year) with
    | none => .error .rangeError
    | some date => .ok date

/-- Source `getDaysUntilDue` (`src/index.js`, lines 69-78). -/
def getDaysUntilDue (now : Moment) (collectionISODate : Moment) : String :=
  let noOfDays := distanceInWordsStrict now collectionISODate
  if (split noOfDays " days")[0]? = some "1" then "Tomorrow"
  else if (split noOfDays " days")[0]? = some "0" then "Today"
  else noOfDays

/-- One entry of `bins` in the response object. -/
structure BinStatus where
  isDue : Bool
  daysUntilDue : String
  collectionDate : Moment
  hasBeenPutOut : Bool
deriving DecidableEq

/-- The object returned by `formatData`; the keys are in insertion order. -/
structure Bins where
  garden : BinStatus
  waste : BinStatus
  recycling : BinStatus
deriving DecidableEq

/-- The expression `json.rss.channel[i].item.title`: a `TypeError` when channel `i` is absent. -/
def channelTitle (channel : List String) (i : Nat) : Except JsError String :=
  match channel[i]? with
  | none => .error .typeError
  | some title => .ok title

/-- Source `formatData` (`src/index.js`, lines 80-107); `channel` lists the titles of
`json.rss.channel`. -/
def formatData (newDate : String → Option Moment) (now : Moment) (channel : List String) :
    Except JsError Bins := do
  let garden ← (channelTitle channel 0).bind (getCollectionDate newDate)
  let waste ← (channelTitle channel 1).bind (getCollectionDate newDate)
  let recycling ← (channelTitle channel 2).bind (getCollectionDate newDate)
  return ⟨⟨binIsDue now garden, getDaysUntilDue now garden, garden, false⟩,
    ⟨binIsDue now waste, getDaysUntilDue now waste, waste, false⟩,
    ⟨binIsDue now recycling, getDaysUntilDue now recycling, recycling, false⟩⟩

/-- The `forEach` of `createMessage`: the first bin starts the message, capitalised; the bin at the
last index is appended after " and "; a bin at any other index leaves the message as it is. -/
def createMessageLoop (length : Nat) : List String → Nat → String → String
  | [], _, message => message
  | bin :: rest, index, message =>
    if index = 0 then createMessageLoop length rest (index + 1) (capitalise bin)
    else if index = length - 1 then
      createMessageLoop length rest (index + 1) (message ++ " and " ++ bin)
    else createMessageLoop length rest (index + 1) message

/-- Source `createMessage` (`src/index.js`, lines 170-196). -/
def createMessage (bins : List String) (day : String) : String :=
  if bins.length = 0 then ""
  else
    let message := createMessageLoop bins.length bins 0 ""
    let message := if bins.length > 1 then message ++ " bins are " else message ++ " bin is "
    message ++ "being collected " ++ day ++ "."

/-- The callback of `Object.entries(data.bins).forEach` (`src/index.js`, lines 152-168); the state
is the pair `(todaysBins, tomorrowsBins)`. -/
def sortBin (lists : List String × List String) (bin : String × BinStatus) :
    List String × List String :=
  if !bin.2.isDue then lists
  else if toLowerCase bin.2.daysUntilDue = "today" then (lists.1 ++ [bin.1], lists.2)
  else if toLowerCase bin.2.daysUntilDue = "tomorrow" then (lists.1, lists.2 ++ [bin.1])
  else lists

/-- Source `handleNewData` (`src/index.js`, lines 142-213): the `value1` handed to
`webhookRequest`, or `none` when the webhook is not called. -/
def handleNewData (bins : Bins) : Option String :=
  if !bins.garden.isDue && !bins.waste.isDue && !bins.recycling.isDue then none
  else
    let lists := [("garden", bins.garden), ("waste", bins.waste),
      ("recycling", bins.recycling)].foldl sortBin ([], [])
    let todaysBins := lists.1
    let tomorrowsBins := lists.2
    if todaysBins.length > 0 && tomorrowsBins.length > 0 then
      some (createMessage todaysBins "today" ++ " " ++ createMessage tomorrowsBins "tomorrow")
    else
      some (createMessage todaysBins "today" ++ createMessage tomorrowsBins "tomorrow")

end Index

/-! ## `src/lambda/index.js` -/

namespace Lambda

/-- Source `mapIndexToBinType` (`src/lambda/index.js`, lines 7-11); `none` is the `undefined` read
at a key the object does not have. -/
def mapIndexToBinType : Nat → Option String
  | 0 => some "waste"
  | 1 => some "garden"
  | 2 => some "recycling"
  | _ => none

/-- The object returned by `getBinDates`. -/
structure BinDates where
  binCollectionTimeHasPassed : Bool
  collectedOn : Int
  collectedOnISOString : Moment
deriving DecidableEq

/-- Source `getBinDates` (`src/lambda/index.js`, lines 67-82); `title` is `bin.item[0].title[0]`.
`dateParts[1].match` throws a `TypeError` when the title has no second piece; `toISOString` throws
a `RangeError` on an Invalid Date. -/
def getBinDates (newDate : String → Option Moment) (today : Moment) (title : String) :
    Except JsError BinDates :=
  let dateParts := split title " "
  match dateParts[1]? with
  | none => .error .typeError
  | some part =>
    let dayNumber := leadingDigits part
    let month := dateParts[2]?
    let year := dateParts[3]?
    match newDate (dateText month dayNumber year) with
    | none => .error .rangeError
    | some binDate =>
      let binCollectionTimeHasPassed := isAfter binDate (atTimeOfDay today 21 11 0 0)
      .ok ⟨binCollectionTimeHasPassed, toLocaleDateString binDate, binDate⟩

/-- Source `isDue` (`src/lambda/index.js`, lines 84-92). -/
def isDue (todaysDate tomorrowsDate : Int) (dates : BinDates) : Bool :=
  if tomorrowsDate == dates.collectedOn then true
  else if todaysDate == dates.collectedOn && !dates.binCollectionTimeHasPassed then true
  else false

/-- Source `getDueDay` (`src/lambda/index.js`, lines 94-103). -/
def getDueDay (now : Moment) (collectionISODate : Moment) : String :=
  let noOfDays := distanceInWordsStrict now collectionISODate
  if (split noOfDays " ")[0]? = some "1" then "tomorrow"
  else if (split noOfDays " ")[0]? = some "0" then "today"
  else noOfDays

/-- One entry of `dueBins`; `title` is `none` when `mapIndexToBinType[index]` is `undefined`. -/
structure DueBin where
  title : Option String
  dueOn : String
deriving DecidableEq

/-- The `forEach` of `getDueBins` (`src/lambda/index.js`, lines 106-115) from position `index` on,
with the entries pushed so far; an exception thrown for one bin ends the loop. -/
def getDueBinsLoop (newDate : String → Option Moment) (now : Moment) :
    List String → Nat → List DueBin → Except JsError (List DueBin)
  | [], _, dueBins => .ok dueBins
  | title :: rest, index, dueBins =>
    match getBinDates newDate now title with
    | .error e => .error e
    | .ok dates =>
      if !isDue (toLocaleDateString now) (toLocaleDateString (addDays now 1)) dates then
        getDueBinsLoop newDate now rest (index + 1) dueBins
      else
        getDueBinsLoop newDate now rest (index + 1)
          (dueBins ++ [⟨mapIndexToBinType index, getDueDay now dates.collectedOnISOString⟩])

/-- Source `getDueBins` (`src/lambda/index.js`, lines 60-118); `channel` lists the titles
`bin.item[0].title[0]` of `data.rss.channel`. -/
def getDueBins (newDate : String → Option Moment) (now : Moment) (channel : List String) :
    Except JsError (List DueBin) :=
  getDueBinsLoop newDate now channel 0 []

/-- The object returned by `formatData`; `updatedOn` is the moment whose text is stored. -/
structure FormattedData where
  updatedOn : Moment
  dueBins : List DueBin
deriving DecidableEq

/-- Source `formatData` (`src/lambda/index.js`, lines 120-131). -/
def formatData (newDate : String → Option Moment) (now : Moment) (channel : List String) :
    Except JsError FormattedData :=
  match getDueBins newDate now channel with
  | .ok dueBins => .ok ⟨now, dueBins⟩
  | .error _ => .error (.error "Error formatting data")

/-- A title inside a template literal: `undefined` prints as the word. -/
def titleText : Option String → String
  | some title => title
  | none => "undefined"

/-- The `forEach` of `buildMessageForDay`: the first bin starts the message, capitalised (a
`TypeError` when its title is `undefined`); the bin at the last index is appended after " and ";
a bin at any other index leaves the message as it is. -/
def buildMessageLoop (length : Nat) : List DueBin → Nat → String → Except JsError String
  | [], _, message => .ok message
  | bin :: rest, index, message =>
    if index = 0 then
      match bin.title with
      | none => .error .typeError
      | some title => buildMessageLoop length rest (index + 1) (capitalise title)
    else if index = length - 1 then
      buildMessageLoop length rest (index + 1) (message ++ " and " ++ titleText bin.title)
    else buildMessageLoop length rest (index + 1) message

/-- Source `buildMessageForDay` (`src/lambda/index.js`, lines 140-160). -/
def buildMessageForDay (bins : List DueBin) (day : String) : Except JsError String :=
  match buildMessageLoop bins.length bins 0 "" with
  | .error e => .error e
  | .ok message =>
    let message := if bins.length > 1 then message ++ " bins are " else message ++ " bin is "
    .ok (message ++ "being collected " ++ day ++ ".")

/-- Source `buildMessage` (`src/lambda/index.js`, lines 133-179); `none` is the `undefined`
returned when control runs off the end of the function. -/
def buildMessage (bins : List DueBin) : Except JsError (Option String) :=
  if bins.length = 0 then .ok (some "No bins due")
  else
    let dueToday := bins.filter (fun bin => bin.dueOn = "today")
    let dueTomorrow := bins.filter (fun bin => bin.dueOn = "tomorrow")
    if dueToday.length ≥ 1 ∧ dueTomorrow.length ≥ 1 then
      match buildMessageForDay dueToday "today", buildMessageForDay dueTomorrow "tomorrow" with
      | .ok part0, .ok part1 => .ok (some (part0 ++ ". " ++ part1))
      | .error e, _ => .error e
      | _, .error e => .error e
    else if dueToday.length ≥ 1 then
      (buildMessageForDay dueToday "today").map some
    else if dueTomorrow.length ≥ 1 then
      (buildMessageForDay dueTomorrow "tomorrow").map some
    else .ok none

/-- The bin names held by `mapIndexToBinType`. -/
def binTypes : List String := ["waste", "garden", "recycling"]

/-- Whether a title is malformed for the code: it has no piece at position 1, or the engine reads
the text built from its pieces at positions 1 to 3 as an Invalid Date. -/
def malformed (newDate : String → Option Moment) (title : String) : Bool :=
  match (split title " ")[1]? with
  | none => true
  | some part =>
    (newDate (dateText (split title " ")[2]? (leadingDigits part) (split title " ")[3]?)).isNone

/-- The titles of the bins of `bins` tagged with `day`, in order. -/
def titlesDueOn (bins : List DueBin) (day : String) : List String :=
  (bins.filter (fun bin => bin.dueOn = day)).filterMap (fun bin => bin.title)

/-- The first character in upper case. -/
def upperFirst (s : String) : String :=
  match s.data with
  | [] => s
  | c :: cs => String.mk (c.toUpper :: cs)

/-- The sentence of the specification for the bins `titles`, all collected on `day`, in the
simplified form of the source: the first title with its first letter in upper case; with several
bins " and " and the last title, then " bins are ", with one bin " bin is "; then
"being collected ", the day and a full stop. -/
def composedSentence (titles : List String) (day : String) : String :=
  match titles with
  | [] => " bin is " ++ "being collected " ++ day ++ "."
  | first :: rest =>
    match rest.getLast? with
    | none => upperFirst first ++ " bin is " ++ "being collected " ++ day ++ "."
    | some last =>
      upperFirst first ++ " and " ++ last ++ " bins are " ++ "being collected " ++ day ++ "."

end Lambda

/-! ## Results of `Except` -/

theorem isOk_iff {ε α : Type} (x : Except ε α) : x.isOk = true ↔ ∃ a, x = .ok a := by
  cases x <;> simp [Except.isOk, Except.toBool]

theorem isOk_false_iff {ε α : Type} (x : Except ε α) : x.isOk = false ↔ ∃ e, x = .error e := by
  cases x <;> simp [Except.isOk, Except.toBool]

/-! ## Dates read from a title -/

theorem toLocaleDateString_addDays_one (now : Moment) :
    toLocaleDateString (addDays now 1) = toLocaleDateString now + 1 := by
  simp only [toLocaleDateString, addDays]
  unfold Moment at *
  omega

namespace Lambda

/-- What `getBinDates` returns on a title with a piece at position 1 whose text the engine
reads. -/
theorem getBinDates_of_read {newDate : String → Option Moment} {today : Moment} {title part : String}
    {date : Moment} (hpart : (split title " ")[1]? = some part)
    (hread : newDate (dateText (split title " ")[2]? (leadingDigits part) (split title " ")[3]?)
      = some date) :
    getBinDates newDate today title =
      .ok ⟨isAfter date (atTimeOfDay today 21 11 0 0), toLocaleDateString date, date⟩ := by
  unfold getBinDates
  simp only [hpart, hread]

theorem getBinDates_ok {newDate : String → Option Moment} {today : Moment} {title : String}
    {dates : BinDates} (h : getBinDates newDate today title = .ok dates) :
    dates.collectedOn = dates.collectedOnISOString / 86400000 ∧
      dates.binCollectionTimeHasPassed =
        decide (dates.collectedOnISOString > today / 86400000 * 86400000 + 76260000) := by
  unfold getBinDates at h
  dsimp only at h
  split at h
  · exact absurd h (by simp)
  · split at h
    · exact absurd h (by simp)
    · simp only [Except.ok.injEq] at h
      subst h
      refine ⟨rfl, ?_⟩
      simp only [isAfter, atTimeOfDay, toLocaleDateString]
      congr 1
      norm_num

theorem malformed_iff_error (newDate : String → Option Moment) (today : Moment) (title : String) :
    malformed newDate title = true ↔ ∃ e, getBinDates newDate today title = .error e := by
  unfold malformed getBinDates
  dsimp only
  cases (split title " ")[1]? with
  | none => simp
  | some part =>
    dsimp only
    cases newDate (dateText (split title " ")[2]? (leadingDigits part) (split title " ")[3]?) <;>
      simp

theorem not_malformed_iff_ok (newDate : String → Option Moment) (today : Moment)
    (title : String) :
    malformed newDate title = false ↔ ∃ dates, getBinDates newDate today title = .ok dates := by
  unfold malformed getBinDates
  dsimp only
  cases (split title " ")[1]? with
  | none => simp
  | some part =>
    dsimp only
    cases newDate (dateText (split title " ")[2]? (leadingDigits part) (split title " ")[3]?) <;>
      simp

end Lambda

/-- A collection instant on the day of `now` or on the next day lies less than two days away. -/
theorem distanceInDays_near {now collection : Moment}
    (hday : collection / 86400000 = now / 86400000 + 1 ∨
      collection / 86400000 = now / 86400000) :
    distanceInDays now collection = 0 ∨ distanceInDays now collection = 1 := by
  unfold Moment at *
  simp only [distanceInDays, compareDesc, differenceInSeconds]
  by_cases h1 : now > collection
  · have h2 : ¬ ((-1 : Int) > 0) := by decide
    have h3 : now - collection > 0 := by omega
    simp only [h1, if_true, h2, if_false, h3]
    omega
  · by_cases h4 : now < collection
    · have h3 : collection - now > 0 := by omega
      simp only [h1, if_false, h4, if_true, show ((1 : Int) > 0) = True from by simp, h3]
      omega
    · have h5 : now = collection := by omega
      subst h5
      simp

namespace Lambda

theorem getDueDay_zero {now collection : Moment} (h : distanceInDays now collection = 0) :
    getDueDay now collection = "today" := by
  unfold getDueDay distanceInWordsStrict
  rw [h]
  decide

theorem getDueDay_one {now collection : Moment} (h : distanceInDays now collection = 1) :
    getDueDay now collection = "tomorrow" := by
  unfold getDueDay distanceInWordsStrict
  rw [h]
  decide

/-- A bin that passes `isDue` is collected on the day of `now` or on the next day. -/
theorem isDue_day {newDate : String → Option Moment} {now : Moment} {title : String}
    {dates : BinDates} (h : getBinDates newDate now title = .ok dates)
    (hdue : isDue (toLocaleDateString now) (toLocaleDateString (addDays now 1)) dates = true) :
    dates.collectedOnISOString / 86400000 = now / 86400000 + 1 ∨
      dates.collectedOnISOString / 86400000 = now / 86400000 := by
  obtain ⟨h1, _⟩ := getBinDates_ok h
  unfold isDue at hdue
  simp only [toLocaleDateString, addDays] at hdue
  unfold Moment at *
  split at hdue
  · rename_i hx
    simp only [beq_iff_eq] at hx
    left; omega
  · split at hdue
    · rename_i hx
      simp only [Bool.and_eq_true, beq_iff_eq] at hx
      right; omega
    · exact absurd hdue (by simp)

theorem getDueDay_of_due {newDate : String → Option Moment} {now : Moment} {title : String}
    {dates : BinDates} (h : getBinDates newDate now title = .ok dates)
    (hdue : isDue (toLocaleDateString now) (toLocaleDateString (addDays now 1)) dates = true) :
    getDueDay now dates.collectedOnISOString = "today" ∨
      getDueDay now dates.collectedOnISOString = "tomorrow" := by
  rcases distanceInDays_near (isDue_day h hdue) with h0 | h1
  · exact Or.inl (getDueDay_zero h0)
  · exact Or.inr (getDueDay_one h1)

end Lambda

/-! ## The loop of `getDueBins` -/

namespace Lambda

theorem getDueBinsLoop_ok (newDate : String → Option Moment) (now : Moment)
    (channel : List String)
    (h : ∀ title ∈ channel, ∃ dates, getBinDates newDate now title = .ok dates) :
    ∀ index dueBins, ∃ bins, getDueBinsLoop newDate now channel index dueBins = .ok bins := by
  induction channel with
  | nil => intro index dueBins; exact ⟨dueBins, rfl⟩
  | cons title rest ih =>
    intro index dueBins
    obtain ⟨dates, hd⟩ := h title (List.mem_cons_self _ _)
    have ih2 := ih (fun t ht => h t (List.mem_cons_of_mem _ ht))
    unfold getDueBinsLoop
    rw [hd]
    dsimp only
    split
    · exact ih2 _ _
    · exact ih2 _ _

theorem getDueBinsLoop_error (newDate : String → Option Moment) (now : Moment)
    (channel : List String)
    (h : ∃ title ∈ channel, ∃ e, getBinDates newDate now title = .error e) :
    ∀ index dueBins, ∃ e, getDueBinsLoop newDate now channel index dueBins = .error e := by
  induction channel with
  | nil => obtain ⟨t, ht, _⟩ := h; exact absurd ht (List.not_mem_nil _)
  | cons title rest ih =>
    intro index dueBins
    unfold getDueBinsLoop
    cases hd : getBinDates newDate now title with
    | error e => exact ⟨e, rfl⟩
    | ok dates =>
      obtain ⟨t, ht, e, he⟩ := h
      have hrest : ∃ title ∈ rest, ∃ e, getBinDates newDate now title = .error e := by
        rcases List.mem_cons.mp ht with rfl | ht2
        · rw [hd] at he; exact absurd he (by simp)
        · exact ⟨t, ht2, e, he⟩
      dsimp only
      split
      · exact ih hrest _ _
      · exact ih hrest _ _

/-- Every entry of the result was either pushed before or is the entry of a due bin of the
channel. -/
theorem getDueBinsLoop_sound (newDate : String → Option Moment) (now : Moment)
    (channel : List String) :
    ∀ index dueBins bins, getDueBinsLoop newDate now channel index dueBins = .ok bins →
      ∀ b ∈ bins, b ∈ dueBins ∨ ∃ k title dates, channel[k]? = some title ∧
        getBinDates newDate now title = .ok dates ∧
        isDue (toLocaleDateString now) (toLocaleDateString (addDays now 1)) dates = true ∧
        b = (⟨mapIndexToBinType (index + k), getDueDay now dates.collectedOnISOString⟩ : DueBin) := by
  induction channel with
  | nil =>
    intro index dueBins bins h b hb
    simp only [getDueBinsLoop, Except.ok.injEq] at h
    subst h
    exact Or.inl hb
  | cons title rest ih =>
    intro index dueBins bins h b hb
    unfold getDueBinsLoop at h
    cases hd : getBinDates newDate now title with
    | error e => rw [hd] at h; exact absurd h (by simp)
    | ok dates =>
      rw [hd] at h
      dsimp only at h
      split at h
      · rcases ih _ _ _ h b hb with h1 | ⟨k, t, d, hk, ht, hdue, hb2⟩
        · exact Or.inl h1
        · refine Or.inr ⟨k + 1, t, d, by simpa using hk, ht, hdue, ?_⟩
          have e : index + 1 + k = index + (k + 1) := by omega
          rw [hb2, e]
      · rename_i hdue0
        rcases ih _ _ _ h b hb with h1 | ⟨k, t, d, hk, ht, hdue, hb2⟩
        · rcases List.mem_append.mp h1 with h2 | h2
          · exact Or.inl h2
          · refine Or.inr ⟨0, title, dates, by simp, hd, by simpa using hdue0, ?_⟩
            simpa using h2
        · refine Or.inr ⟨k + 1, t, d, by simpa using hk, ht, hdue, ?_⟩
          have e : index + 1 + k = index + (k + 1) := by omega
          rw [hb2, e]

/-- Every entry pushed before, and the entry of every due bin of the channel, is in the result. -/
theorem getDueBinsLoop_complete (newDate : String → Option Moment) (now : Moment)
    (channel : List String) :
    ∀ index dueBins bins, getDueBinsLoop newDate now channel index dueBins = .ok bins →
      (∀ b ∈ dueBins, b ∈ bins) ∧ ∀ k title dates, channel[k]? = some title →
        getBinDates newDate now title = .ok dates →
        isDue (toLocaleDateString now) (toLocaleDateString (addDays now 1)) dates = true →
        (⟨mapIndexToBinType (index + k), getDueDay now dates.collectedOnISOString⟩ : DueBin) ∈ bins := by
  induction channel with
  | nil =>
    intro index dueBins bins h
    simp only [getDueBinsLoop, Except.ok.injEq] at h
    subst h
    exact ⟨fun b hb => hb, fun k t d hk => by simp at hk⟩
  | cons title rest ih =>
    intro index dueBins bins h
    unfold getDueBinsLoop at h
    cases hd : getBinDates newDate now title with
    | error e => rw [hd] at h; exact absurd h (by simp)
    | ok dates =>
      rw [hd] at h
      dsimp only at h
      split at h
      · rename_i hdue0
        obtain ⟨hacc, hrest⟩ := ih _ _ _ h
        refine ⟨hacc, ?_⟩
        intro k t d hk ht hdue
        cases k with
        | zero =>
          simp only [List.getElem?_cons_zero, Option.some.injEq] at hk
          subst hk
          rw [hd] at ht
          simp only [Except.ok.injEq] at ht
          subst ht
          simp [hdue] at hdue0
        | succ k =>
          have := hrest k t d (by simpa using hk) ht hdue
          have e : index + (k + 1) = index + 1 + k := by omega
          rw [e]; exact this
      · obtain ⟨hacc, hrest⟩ := ih _ _ _ h
        refine ⟨fun b hb => hacc b (List.mem_append_left _ hb), ?_⟩
        intro k t d hk ht hdue
        cases k with
        | zero =>
          simp only [List.getElem?_cons_zero, Option.some.injEq] at hk
          subst hk
          rw [hd] at ht
          simp only [Except.ok.injEq] at ht
          subst ht
          exact hacc _ (List.mem_append_right _ (by simp))
        | succ k =>
          have := hrest k t d (by simpa using hk) ht hdue
          have e : index + (k + 1) = index + 1 + k := by omega
          rw [e]; exact this

end Lambda

/-! ## Composition of the message -/

namespace Lambda

theorem capitalise_binType (title : String) (h : title ∈ binTypes) :
    capitalise title = upperFirst title := by
  simp only [binTypes, List.mem_cons, List.mem_singleton, List.not_mem_nil, or_false] at h
  rcases h with rfl | rfl | rfl <;> decide

theorem filterMap_title (bins : List DueBin) (h : ∀ b ∈ bins, ∃ title, b.title = some title) :
    bins.filterMap (fun bin => bin.title) = bins.map (fun bin => titleText bin.title) := by
  induction bins with
  | nil => rfl
  | cons b rest ih =>
    obtain ⟨title, ht⟩ := h b (List.mem_cons_self _ _)
    have ih2 := ih (fun x hx => h x (List.mem_cons_of_mem _ hx))
    simp [List.filterMap_cons, ht, titleText, ih2]

/-- The loop from a position past the first: the message gains " and " and the title of the last
bin, when there is a bin left. -/
theorem buildMessageLoop_tail (length : Nat) (rest : List DueBin) :
    ∀ index message, 1 ≤ index → index + rest.length = length →
      buildMessageLoop length rest index message =
        .ok (match rest.getLast? with
          | none => message
          | some bin => message ++ " and " ++ titleText bin.title) := by
  induction rest with
  | nil => intro index message _ _; rfl
  | cons bin rest ih =>
    intro index message hi hlen
    unfold buildMessageLoop
    rw [if_neg (by omega)]
    cases rest with
    | nil =>
      simp only [List.length_cons, List.length_nil] at hlen
      rw [if_pos (by omega)]
      rfl
    | cons bin2 rest2 =>
      simp only [List.length_cons] at hlen
      rw [if_neg (by omega)]
      rw [ih (index + 1) message (by omega) (by simp only [List.length_cons]; omega)]
      simp [List.getLast?_cons_cons]

theorem buildMessageForDay_eq (bins : List DueBin) (day : String)
    (h : ∀ b ∈ bins, ∃ title ∈ binTypes, b.title = some title) :
    buildMessageForDay bins day =
      .ok (composedSentence (bins.filterMap (fun bin => bin.title)) day) := by
  have hsome : ∀ b ∈ bins, ∃ title, b.title = some title := fun b hb =>
    let ⟨t, _, ht⟩ := h b hb
    ⟨t, ht⟩
  rw [filterMap_title bins hsome]
  cases bins with
  | nil => rfl
  | cons bin rest =>
    obtain ⟨title, hmem, ht⟩ := h bin (List.mem_cons_self _ _)
    unfold buildMessageForDay
    unfold buildMessageLoop
    rw [if_pos rfl, ht]
    dsimp only
    rw [buildMessageLoop_tail _ rest 1 _ (by omega) (by simp only [List.length_cons]; omega)]
    rw [capitalise_binType title hmem]
    simp only [List.map_cons, composedSentence, titleText, List.getLast?_map]
    cases hlast : rest.getLast? with
    | none =>
      have : rest = [] := by
        cases rest with
        | nil => rfl
        | cons a l => simp [List.getLast?_cons] at hlast
      subst this
      simp [ht]
    | some last =>
      have : rest ≠ [] := by
        intro h0
        subst h0
        simp at hlast
      have hlen : (bin :: rest).length > 1 := by
        cases rest with
        | nil => exact absurd rfl this
        | cons a l => simp
      have hpos : 0 < rest.length := List.length_pos.mpr this
      simp [ht, hpos]

end Lambda

namespace Lambda

theorem titlesDueOn_ne_nil (bins : List DueBin) (day : String)
    (h : ∀ b ∈ bins, ∃ title, b.title = some title) :
    titlesDueOn bins day ≠ [] ↔ (bins.filter (fun bin => bin.dueOn = day)).length ≥ 1 := by
  unfold titlesDueOn
  rw [filterMap_title _ (fun b hb => h b (List.mem_filter.mp hb).1)]
  cases bins.filter (fun bin => bin.dueOn = day) <;> simp

/-- The message for a non-empty list of bins of the three bin types, each tagged "today" or
"tomorrow", in closed form. -/
theorem buildMessage_eq (bins : List DueBin) (hne : bins ≠ [])
    (hlabel : ∀ b ∈ bins, b.dueOn = "today" ∨ b.dueOn = "tomorrow")
    (htitle : ∀ b ∈ bins, ∃ title ∈ binTypes, b.title = some title) :
    buildMessage bins = .ok (some (
      if titlesDueOn bins "today" ≠ [] ∧ titlesDueOn bins "tomorrow" ≠ [] then
        composedSentence (titlesDueOn bins "today") "today" ++ ". " ++
          composedSentence (titlesDueOn bins "tomorrow") "tomorrow"
      else if titlesDueOn bins "today" ≠ [] then
        composedSentence (titlesDueOn bins "today") "today"
      else composedSentence (titlesDueOn bins "tomorrow") "tomorrow")) := by
  have hsome : ∀ b ∈ bins, ∃ title, b.title = some title := fun b hb =>
    let ⟨t, _, ht⟩ := htitle b hb
    ⟨t, ht⟩
  have h0 := buildMessageForDay_eq (bins.filter (fun bin => bin.dueOn = "today")) "today"
    (fun b hb => htitle b (List.mem_filter.mp hb).1)
  have h1 := buildMessageForDay_eq (bins.filter (fun bin => bin.dueOn = "tomorrow")) "tomorrow"
    (fun b hb => htitle b (List.mem_filter.mp hb).1)
  have e0 := titlesDueOn_ne_nil bins "today" hsome
  have e1 := titlesDueOn_ne_nil bins "tomorrow" hsome
  have hlen : bins.length ≠ 0 := fun h => hne (List.length_eq_zero.mp h)
  have hsome1 : (bins.filter (fun bin => bin.dueOn = "today")).length ≥ 1 ∨
      (bins.filter (fun bin => bin.dueOn = "tomorrow")).length ≥ 1 := by
    obtain ⟨b, rest, rfl⟩ := List.exists_cons_of_ne_nil hne
    rcases hlabel b (List.mem_cons_self _ _) with hb | hb
    · left
      exact List.length_pos_of_mem (List.mem_filter.mpr ⟨List.mem_cons_self _ _, by simp [hb]⟩)
    · right
      exact List.length_pos_of_mem (List.mem_filter.mpr ⟨List.mem_cons_self _ _, by simp [hb]⟩)
  unfold buildMessage
  dsimp only
  rw [if_neg hlen, h0, h1]
  simp only [e0, e1]
  change (if _ then _ else _) = _
  by_cases c0 : (bins.filter (fun bin => bin.dueOn = "today")).length ≥ 1
  · by_cases c1 : (bins.filter (fun bin => bin.dueOn = "tomorrow")).length ≥ 1
    · simp only [c0, c1, and_self, if_true]
      rfl
    · simp only [c0, c1, and_false, if_false, if_true]
      rfl
  · have c1 : (bins.filter (fun bin => bin.dueOn = "tomorrow")).length ≥ 1 := by
      rcases hsome1 with h | h
      · exact absurd h c0
      · exact h
    simp only [c0, c1, false_and, if_false, if_true]
    rfl

theorem getDueBins_titles (newDate : String → Option Moment) (now : Moment)
    (channel : List String) (bins : List DueBin)
    (hlen : channel.length ≤ 3) (h : getDueBins newDate now channel = .ok bins) :
    ∀ b ∈ bins, ∃ title ∈ binTypes, b.title = some title := by
  intro b hb
  rcases getDueBinsLoop_sound newDate now channel 0 [] bins h b hb with
    h1 | ⟨k, t, d, hk, _, _, hb2⟩
  · exact absurd h1 (List.not_mem_nil _)
  · have hk3 : k < 3 := by
      have := (List.getElem?_eq_some.mp hk).1
      omega
    subst hb2
    simp only [Nat.zero_add]
    interval_cases k
    · exact ⟨"waste", by decide, rfl⟩
    · exact ⟨"garden", by decide, rfl⟩
    · exact ⟨"recycling", by decide, rfl⟩

theorem getDueBins_labels (newDate : String → Option Moment) (now : Moment)
    (channel : List String) (bins : List DueBin)
    (h : getDueBins newDate now channel = .ok bins) :
    ∀ b ∈ bins, b.dueOn = "today" ∨ b.dueOn = "tomorrow" := by
  intro b hb
  rcases getDueBinsLoop_sound newDate now channel 0 [] bins h b hb with
    h1 | ⟨k, t, d, _, ht, hdue, hb2⟩
  · exact absurd h1 (List.not_mem_nil _)
  · subst hb2
    exact getDueDay_of_due ht hdue

end Lambda

/-! ## A bin whose date is read as 23:00 of its day -/

theorem distanceInDays_next_day_eq {now collection : Moment}
    (hday : collection / 86400000 = now / 86400000 + 1)
    (htime : collection % 86400000 = 82800000) :
    distanceInDays now collection = if now % 86400000 ≤ 23 * 3600 * 1000 then 1 else 0 := by
  unfold Moment at *
  have hlt : now < collection := by omega
  have hnot : ¬ now > collection := by omega
  have hpos : collection - now > 0 := by omega
  simp only [distanceInDays, compareDesc, differenceInSeconds, hlt, hnot, hpos, if_true, if_false]
  simp only [show ((1 : Int) > 0) = True from by simp, if_true]
  split <;> omega

/-- In the scheduled job a bin read as 23:00:00.000 of the day after `now` is labelled "tomorrow"
up to 23:00:00.000 of the day of `now`, and "today" during the last hour of that day. -/
theorem Lambda.getDueDay_next_day (newDate : String → Option Moment) (now : Moment)
    (title : String) (dates : Lambda.BinDates)
    (h : Lambda.getBinDates newDate now title = .ok dates)
    (hanchor : timeOfDay dates.collectedOnISOString = 23 * 3600 * 1000)
    (hday : dates.collectedOn = toLocaleDateString now + 1) :
    Lambda.getDueDay now dates.collectedOnISOString =
      if timeOfDay now ≤ 23 * 3600 * 1000 then "tomorrow" else "today" := by
  obtain ⟨h1, _⟩ := Lambda.getBinDates_ok h
  rw [h1] at hday
  have hd := distanceInDays_next_day_eq hday (by simpa [timeOfDay] using hanchor)
  simp only [timeOfDay]
  split
  · rename_i hle
    rw [if_pos hle] at hd
    exact Lambda.getDueDay_one hd
  · rename_i hle
    rw [if_neg hle] at hd
    exact Lambda.getDueDay_zero hd

/-- In the scheduled job a bin read as 23:00:00.000 of the day of `now` is never due, whatever the
time of day: its anchor is after the 21:11 cutoff of that day. -/
theorem Lambda.isDue_same_day (newDate : String → Option Moment) (now : Moment)
    (title : String) (dates : Lambda.BinDates)
    (h : Lambda.getBinDates newDate now title = .ok dates)
    (hanchor : timeOfDay dates.collectedOnISOString = 23 * 3600 * 1000)
    (hday : dates.collectedOn = toLocaleDateString now) :
    Lambda.isDue (toLocaleDateString now) (toLocaleDateString (addDays now 1)) dates = false := by
  obtain ⟨h1, h2⟩ := Lambda.getBinDates_ok h
  have hpassed : dates.binCollectionTimeHasPassed = true := by
    rw [h2, decide_eq_true_eq]
    rw [h1] at hday
    simp only [toLocaleDateString, timeOfDay] at hday hanchor
    generalize dates.collectedOnISOString = c at *
    unfold Moment at *
    omega
  unfold Lambda.isDue
  rw [hpassed, hday, toLocaleDateString_addDays_one]
  have hne : (toLocaleDateString now + 1 == toLocaleDateString now) = false := by
    simp
  simp [hne]

/-! ## Running the code on a title -/

theorem Lambda.getBinDates_eval (newDate : String → Option Moment) (today : Moment)
    (title part text : String) (date : Moment)
    (hpart : (split title " ")[1]? = some part)
    (htext : dateText (split title " ")[2]? (leadingDigits part) (split title " ")[3]? = text)
    (hread : newDate text = some date) :
    Lambda.getBinDates newDate today title =
      .ok ⟨isAfter date (atTimeOfDay today 21 11 0 0), toLocaleDateString date, date⟩ :=
  Lambda.getBinDates_of_read hpart (by rw [htext]; exact hread)

theorem Index.getCollectionDate_eval (newDate : String → Option Moment)
    (title part text : String) (date : Moment)
    (hpart : (split title " ")[1]? = some part)
    (htext : dateText (split title " ")[2]? (leadingDigits part) (split title " ")[3]? = text)
    (hread : newDate text = some date) :
    Index.getCollectionDate newDate title = .ok date := by
  unfold Index.getCollectionDate
  simp only [hpart, htext, hread]

/-! ## The claims -/

/-- Claim C1, evaluated on the code: with an engine that reads "Jul 9, 2018 23:00:00" as 23:00 on
9 July 2018, at 10:00 on 9 July 2018, before the 21:11 cutoff, a feed whose only title carries
9 July 2018 yields an empty list from `getDueBins` of `src/lambda/index.js`; the bin is not
reported as due today. -/
theorem lambda_same_day_bin_not_reported (newDate : String → Option Moment)
    (hread : newDate "Jul 9, 2018 23:00:00" = some (mkDate 2018 6 9 23 0 0 0)) :
    toLocaleDateString (mkDate 2018 6 9 10 0 0 0) = makeDay 2018 6 9 ∧
    timeOfDay (mkDate 2018 6 9 10 0 0 0) < (21 * 3600 + 11 * 60 + 0) * 1000 ∧
    (Lambda.getBinDates newDate (mkDate 2018 6 9 10 0 0 0) "Mon 9 Jul 2018").map
      (fun dates => dates.collectedOn) = .ok (makeDay 2018 6 9) ∧
    Lambda.getDueBins newDate (mkDate 2018 6 9 10 0 0 0) ["Mon 9 Jul 2018"] = .ok [] := by
  have hb := Lambda.getBinDates_eval newDate (mkDate 2018 6 9 10 0 0 0) "Mon 9 Jul 2018" "9" _ _
    (by decide) (by decide) hread
  refine ⟨by decide, by decide, ?_, ?_⟩
  · rw [hb]; decide
  · simp only [Lambda.getDueBins, Lambda.getDueBinsLoop, hb]
    decide

/-- Claim C1 run with the reader of calendar texts. -/
theorem lambda_same_day_bin_not_reported_witness :
    readCalendarText "Jul 9, 2018 23:00:00" = some (mkDate 2018 6 9 23 0 0 0) ∧
    toLocaleDateString (mkDate 2018 6 9 10 0 0 0) = makeDay 2018 6 9 ∧
    timeOfDay (mkDate 2018 6 9 10 0 0 0) < (21 * 3600 + 11 * 60 + 0) * 1000 ∧
    (Lambda.getBinDates readCalendarText (mkDate 2018 6 9 10 0 0 0) "Mon 9 Jul 2018").map
      (fun dates => dates.collectedOn) = .ok (makeDay 2018 6 9) ∧
    Lambda.getDueBins readCalendarText (mkDate 2018 6 9 10 0 0 0) ["Mon 9 Jul 2018"] = .ok [] :=
  ⟨by decide, lambda_same_day_bin_not_reported readCalendarText (by decide)⟩

/-- Claim C2, evaluated on the code: with an engine that reads "Jul 9, 2018 23:00:00" as 23:00 on
9 July 2018, at 23:30 on 8 July 2018 a feed whose only title carries 9 July 2018 yields one due
bin from `getDueBins` of `src/lambda/index.js`, labelled "today", and the message says the bin is
collected today. -/
theorem lambda_next_day_bin_labelled_today_late_evening (newDate : String → Option Moment)
    (hread : newDate "Jul 9, 2018 23:00:00" = some (mkDate 2018 6 9 23 0 0 0)) :
    toLocaleDateString (mkDate 2018 6 8 23 30 0 0) = makeDay 2018 6 8 ∧
    (Lambda.getBinDates newDate (mkDate 2018 6 8 23 30 0 0) "Tue 9 Jul 2018").map
      (fun dates => dates.collectedOn) = .ok (makeDay 2018 6 8 + 1) ∧
    Lambda.getDueBins newDate (mkDate 2018 6 8 23 30 0 0) ["Tue 9 Jul 2018"] =
      .ok [⟨some "waste", "today"⟩] ∧
    (Lambda.getDueBins newDate (mkDate 2018 6 8 23 30 0 0) ["Tue 9 Jul 2018"]).bind
      Lambda.buildMessage = .ok (some "Waste bin is being collected today.") := by
  have hb := Lambda.getBinDates_eval newDate (mkDate 2018 6 8 23 30 0 0) "Tue 9 Jul 2018" "9" _ _
    (by decide) (by decide) hread
  refine ⟨by decide, ?_, ?_, ?_⟩
  · rw [hb]; decide
  · simp only [Lambda.getDueBins, Lambda.getDueBinsLoop, hb]
    decide
  · simp only [Lambda.getDueBins, Lambda.getDueBinsLoop, hb]
    decide

/-- Claim C2 run with the reader of calendar texts. -/
theorem lambda_next_day_bin_labelled_today_late_evening_witness :
    readCalendarText "Jul 9, 2018 23:00:00" = some (mkDate 2018 6 9 23 0 0 0) ∧
    toLocaleDateString (mkDate 2018 6 8 23 30 0 0) = makeDay 2018 6 8 ∧
    (Lambda.getBinDates readCalendarText (mkDate 2018 6 8 23 30 0 0) "Tue 9 Jul 2018").map
      (fun dates => dates.collectedOn) = .ok (makeDay 2018 6 8 + 1) ∧
    Lambda.getDueBins readCalendarText (mkDate 2018 6 8 23 30 0 0) ["Tue 9 Jul 2018"] =
      .ok [⟨some "waste", "today"⟩] ∧
    (Lambda.getDueBins readCalendarText (mkDate 2018 6 8 23 30 0 0) ["Tue 9 Jul 2018"]).bind
      Lambda.buildMessage = .ok (some "Waste bin is being collected today.") :=
  ⟨by decide, lambda_next_day_bin_labelled_today_late_evening readCalendarText (by decide)⟩

/-- The scenario of the specification at 10:00 on 8 July 2018, run with the reader of calendar
texts: the bin is labelled "tomorrow". -/
theorem lambda_next_day_bin_scenario :
    Lambda.getDueBins readCalendarText (mkDate 2018 6 8 10 0 0 0) ["Tue 9 Jul 2018"] =
      .ok [⟨some "waste", "tomorrow"⟩] ∧
    (Lambda.getDueBins readCalendarText (mkDate 2018 6 8 10 0 0 0) ["Tue 9 Jul 2018"]).bind
      Lambda.buildMessage = .ok (some "Waste bin is being collected tomorrow.") := by
  decide

/-- Claim C3: `binIsDue` of `src/index.js` returns true exactly when the local calendar day of the
collection instant is the day of `now` plus one day, or it is the day of `now` and `now` is not
strictly after 21:11:00 of that day; otherwise it returns false. -/
theorem binIsDue_iff (now collection : Moment) :
    Index.binIsDue now collection = true ↔
      (toLocaleDateString collection = toLocaleDateString (addDays now 1) ∨
        (toLocaleDateString collection = toLocaleDateString now ∧
          ¬ timeOfDay now > (21 * 3600 + 11 * 60 + 0) * 1000)) := by
  simp only [Index.binIsDue, toLocaleDateString, addDays, isAfter, atTimeOfDay, timeOfDay]
  unfold Moment at *
  split
  · rename_i h
    simp only [beq_iff_eq] at h
    simp only [true_iff]
    left; omega
  · rename_i h
    simp only [beq_iff_eq] at h
    split
    · rename_i h2
      simp only [Bool.and_eq_true, beq_iff_eq, Bool.not_eq_true', decide_eq_false_iff_not] at h2
      simp only [true_iff]
      right; omega
    · rename_i h2
      simp only [Bool.and_eq_true, beq_iff_eq, Bool.not_eq_true', decide_eq_false_iff_not,
        not_and, not_not] at h2
      simp only [Bool.false_eq_true, false_iff, not_or, not_and, not_not]
      constructor
      · omega
      · intro h3
        have := h2 (by omega)
        omega

/-- Claim C4, evaluated on the code: with an engine that reads "Jul 9, 2018 23:00:00" as 23:00 on
9 July 2018, at 10:00 on 8 July 2018 the title "Tue 9 Jul 2018" gives a collection instant on the
next calendar day, `binIsDue` of `src/index.js` classifies the bin as due, and `getDaysUntilDue`
returns "1 day", which does not read "tomorrow". -/
theorem getDaysUntilDue_next_day_reads_one_day (newDate : String → Option Moment)
    (hread : newDate "Jul 9, 2018 23:00:00" = some (mkDate 2018 6 9 23 0 0 0)) :
    Index.getCollectionDate newDate "Tue 9 Jul 2018" = .ok (mkDate 2018 6 9 23 0 0 0) ∧
    toLocaleDateString (mkDate 2018 6 9 23 0 0 0) =
      toLocaleDateString (mkDate 2018 6 8 10 0 0 0) + 1 ∧
    Index.binIsDue (mkDate 2018 6 8 10 0 0 0) (mkDate 2018 6 9 23 0 0 0) = true ∧
    Index.getDaysUntilDue (mkDate 2018 6 8 10 0 0 0) (mkDate 2018 6 9 23 0 0 0) = "1 day" ∧
    toLowerCase (Index.getDaysUntilDue (mkDate 2018 6 8 10 0 0 0) (mkDate 2018 6 9 23 0 0 0))
      ≠ "tomorrow" :=
  ⟨Index.getCollectionDate_eval newDate "Tue 9 Jul 2018" "9" _ _ (by decide) (by decide) hread,
    by decide, by decide, by decide, by decide⟩

/-- Claim C4 run with the reader of calendar texts. -/
theorem getDaysUntilDue_next_day_reads_one_day_witness :
    readCalendarText "Jul 9, 2018 23:00:00" = some (mkDate 2018 6 9 23 0 0 0) ∧
    Index.getCollectionDate readCalendarText "Tue 9 Jul 2018" = .ok (mkDate 2018 6 9 23 0 0 0) ∧
    toLocaleDateString (mkDate 2018 6 9 23 0 0 0) =
      toLocaleDateString (mkDate 2018 6 8 10 0 0 0) + 1 ∧
    Index.binIsDue (mkDate 2018 6 8 10 0 0 0) (mkDate 2018 6 9 23 0 0 0) = true ∧
    Index.getDaysUntilDue (mkDate 2018 6 8 10 0 0 0) (mkDate 2018 6 9 23 0 0 0) = "1 day" ∧
    toLowerCase (Index.getDaysUntilDue (mkDate 2018 6 8 10 0 0 0) (mkDate 2018 6 9 23 0 0 0))
      ≠ "tomorrow" :=
  ⟨by decide, getDaysUntilDue_next_day_reads_one_day readCalendarText (by decide)⟩

/-- Claim C5, evaluated on the code: with an engine that reads "Jul 9, 2018 23:00:00" and
"Jul 17, 2018 23:00:00" as 23:00 on those days, at 10:00 on 8 July 2018, with the garden bin
collected on 9 July 2018 and the other two on 17 July 2018, `formatData` of `src/index.js` marks
the garden bin as due and `handleNewData` calls the webhook with the empty string as `value1`. -/
theorem handleNewData_sends_empty_message (newDate : String → Option Moment)
    (hread9 : newDate "Jul 9, 2018 23:00:00" = some (mkDate 2018 6 9 23 0 0 0))
    (hread17 : newDate "Jul 17, 2018 23:00:00" = some (mkDate 2018 6 17 23 0 0 0)) :
    (Index.formatData newDate (mkDate 2018 6 8 10 0 0 0)
      ["Tue 9 Jul 2018", "Tue 17 Jul 2018", "Tue 17 Jul 2018"]).map
        (fun bins => (bins.garden.isDue, Index.handleNewData bins)) = .ok (true, some "") := by
  have h9 := Index.getCollectionDate_eval newDate "Tue 9 Jul 2018" "9" _ _
    (by decide) (by decide) hread9
  have h17 := Index.getCollectionDate_eval newDate "Tue 17 Jul 2018" "17" _ _
    (by decide) (by decide) hread17
  simp only [Index.formatData, Index.channelTitle, List.getElem?_cons_zero,
    List.getElem?_cons_succ, Except.bind, h9, h17, bind, pure, Except.pure]
  decide

/-- Claim C5 run with the reader of calendar texts. -/
theorem handleNewData_sends_empty_message_witness :
    readCalendarText "Jul 9, 2018 23:00:00" = some (mkDate 2018 6 9 23 0 0 0) ∧
    readCalendarText "Jul 17, 2018 23:00:00" = some (mkDate 2018 6 17 23 0 0 0) ∧
    (Index.formatData readCalendarText (mkDate 2018 6 8 10 0 0 0)
      ["Tue 9 Jul 2018", "Tue 17 Jul 2018", "Tue 17 Jul 2018"]).map
        (fun bins => (bins.garden.isDue, Index.handleNewData bins)) = .ok (true, some "") :=
  ⟨by decide, by decide,
    handleNewData_sends_empty_message readCalendarText (by decide) (by decide)⟩

/-- Claim C7, evaluated on the code: with an engine that reads "Jul 9, 2018 23:00:00" as 23:00 on
9 July 2018, at 10:00 on 8 July 2018 all three bins are collected the next day; `getDueBins`
returns the three of them and `buildMessage` of `src/lambda/index.js` names only the first and the
last, the garden bin is missing; `createMessage` of `src/index.js` drops the middle bin of three
in the same way. -/
theorem buildMessage_three_bins_drops_middle (newDate : String → Option Moment)
    (hread : newDate "Jul 9, 2018 23:00:00" = some (mkDate 2018 6 9 23 0 0 0)) :
    Lambda.getDueBins newDate (mkDate 2018 6 8 10 0 0 0)
      ["Tue 9 Jul 2018", "Tue 9 Jul 2018", "Tue 9 Jul 2018"] =
      .ok [⟨some "waste", "tomorrow"⟩, ⟨some "garden", "tomorrow"⟩,
        ⟨some "recycling", "tomorrow"⟩] ∧
    Lambda.buildMessage
      [⟨some "waste", "tomorrow"⟩, ⟨some "garden", "tomorrow"⟩, ⟨some "recycling", "tomorrow"⟩] =
      .ok (some "Waste and recycling bins are being collected tomorrow.") ∧
    Index.createMessage ["garden", "waste", "recycling"] "today" =
      "Garden and recycling bins are being collected today." := by
  have hb := Lambda.getBinDates_eval newDate (mkDate 2018 6 8 10 0 0 0) "Tue 9 Jul 2018" "9" _ _
    (by decide) (by decide) hread
  refine ⟨?_, by decide, by decide⟩
  simp only [Lambda.getDueBins, Lambda.getDueBinsLoop, hb]
  decide

/-- Claim C7 run with the reader of calendar texts. -/
theorem buildMessage_three_bins_drops_middle_witness :
    readCalendarText "Jul 9, 2018 23:00:00" = some (mkDate 2018 6 9 23 0 0 0) ∧
    Lambda.getDueBins readCalendarText (mkDate 2018 6 8 10 0 0 0)
      ["Tue 9 Jul 2018", "Tue 9 Jul 2018", "Tue 9 Jul 2018"] =
      .ok [⟨some "waste", "tomorrow"⟩, ⟨some "garden", "tomorrow"⟩,
        ⟨some "recycling", "tomorrow"⟩] ∧
    Lambda.buildMessage
      [⟨some "waste", "tomorrow"⟩, ⟨some "garden", "tomorrow"⟩, ⟨some "recycling", "tomorrow"⟩] =
      .ok (some "Waste and recycling bins are being collected tomorrow.") ∧
    Index.createMessage ["garden", "waste", "recycling"] "today" =
      "Garden and recycling bins are being collected today." :=
  ⟨by decide, buildMessage_three_bins_drops_middle readCalendarText (by decide)⟩

/-- Claim C6 refuted as stated, run with the reader of calendar texts: at 10:00 on 8 July 2018,
with the first title malformed (no piece at position 1) and the second one well-formed and
collected the next day, `getDueBins` of `src/lambda/index.js` throws and `formatData` throws
"Error formatting data"; no bin is returned. -/
theorem getDueBins_fails_on_one_malformed_title :
    (split "Unknown" " ")[1]? = none ∧
    Lambda.getBinDates readCalendarText (mkDate 2018 6 8 10 0 0 0) "Unknown" = .error .typeError ∧
    (Lambda.getBinDates readCalendarText (mkDate 2018 6 8 10 0 0 0) "Tue 9 Jul 2018").map
      (fun dates => dates.collectedOn) = .ok (toLocaleDateString (mkDate 2018 6 8 10 0 0 0) + 1) ∧
    Lambda.getDueBins readCalendarText (mkDate 2018 6 8 10 0 0 0)
      ["Unknown", "Tue 9 Jul 2018", "Tue 17 Jul 2018"] = .error .typeError ∧
    Lambda.formatData readCalendarText (mkDate 2018 6 8 10 0 0 0)
      ["Unknown", "Tue 9 Jul 2018", "Tue 17 Jul 2018"] =
      .error (.error "Error formatting data") := by
  decide

/-- Claim C6 as amended: in `src/lambda/index.js`, whatever the engine reads, when the title of at
least one bin of the feed is malformed (it has no piece at position 1, or the date built from its
pieces is an Invalid Date), `getDueBins` fails and `formatData` fails with
"Error formatting data", whatever the other titles are; when no title is malformed, `getDueBins`
returns a list, `formatData` returns it, and the list holds, under its bin type, every bin whose
collection date is the day after `now`. -/
theorem getDueBins_fails_iff_some_title_malformed (newDate : String → Option Moment)
    (now : Moment) (channel : List String) :
    ((∃ title ∈ channel, Lambda.malformed newDate title = true) →
      (Lambda.getDueBins newDate now channel).isOk = false ∧
        Lambda.formatData newDate now channel = .error (.error "Error formatting data")) ∧
    ((∀ title ∈ channel, Lambda.malformed newDate title = false) →
      ∃ bins, Lambda.getDueBins newDate now channel = .ok bins ∧
        Lambda.formatData newDate now channel = .ok ⟨now, bins⟩ ∧
        ∀ k title part date, channel[k]? = some title →
          (split title " ")[1]? = some part →
          newDate (dateText (split title " ")[2]? (leadingDigits part) (split title " ")[3]?)
            = some date →
          toLocaleDateString date = toLocaleDateString now + 1 →
          (⟨Lambda.mapIndexToBinType k, Lambda.getDueDay now date⟩ : Lambda.DueBin) ∈ bins) := by
  constructor
  · intro h
    have h2 : ∃ title ∈ channel, ∃ e, Lambda.getBinDates newDate now title = .error e := by
      obtain ⟨t, ht, he⟩ := h
      exact ⟨t, ht, (Lambda.malformed_iff_error newDate now t).mp he⟩
    obtain ⟨e, he⟩ := Lambda.getDueBinsLoop_error newDate now channel h2 0 []
    have he2 : Lambda.getDueBins newDate now channel = .error e := he
    exact ⟨(isOk_false_iff _).mpr ⟨e, he2⟩, by simp [Lambda.formatData, he2]⟩
  · intro h
    obtain ⟨bins, hb⟩ := Lambda.getDueBinsLoop_ok newDate now channel
      (fun t ht => (Lambda.not_malformed_iff_ok newDate now t).mp (h t ht)) 0 []
    have hb2 : Lambda.getDueBins newDate now channel = .ok bins := hb
    refine ⟨bins, hb2, by simp [Lambda.formatData, hb2], ?_⟩
    intro k title part date hk hpart hread hday
    have hdates := Lambda.getBinDates_eval newDate now title part _ date hpart rfl hread
    have hdue : Lambda.isDue (toLocaleDateString now) (toLocaleDateString (addDays now 1))
        ⟨isAfter date (atTimeOfDay now 21 11 0 0), toLocaleDateString date, date⟩ = true := by
      unfold Lambda.isDue
      rw [toLocaleDateString_addDays_one, hday]
      simp
    have := (Lambda.getDueBinsLoop_complete newDate now channel 0 [] bins hb).2 k title _
      hk hdates hdue
    simpa using this

/-- Both halves of the amended claim C6 at 10:00 on 8 July 2018, run with the reader of calendar
texts: a feed with one malformed title, and a feed of two well-formed titles. -/
theorem getDueBins_fails_iff_some_title_malformed_witness :
    ((∃ title ∈ ["Unknown", "Tue 9 Jul 2018"], Lambda.malformed readCalendarText title = true) ∧
      (Lambda.getDueBins readCalendarText (mkDate 2018 6 8 10 0 0 0)
        ["Unknown", "Tue 9 Jul 2018"]).isOk = false ∧
      Lambda.formatData readCalendarText (mkDate 2018 6 8 10 0 0 0) ["Unknown", "Tue 9 Jul 2018"] =
        .error (.error "Error formatting data")) ∧
    ((∀ title ∈ ["Tue 17 Jul 2018", "Tue 9 Jul 2018"],
        Lambda.malformed readCalendarText title = false) ∧
      ∃ bins, Lambda.getDueBins readCalendarText (mkDate 2018 6 8 10 0 0 0)
          ["Tue 17 Jul 2018", "Tue 9 Jul 2018"] = .ok bins ∧
        Lambda.formatData readCalendarText (mkDate 2018 6 8 10 0 0 0)
          ["Tue 17 Jul 2018", "Tue 9 Jul 2018"] = .ok ⟨mkDate 2018 6 8 10 0 0 0, bins⟩ ∧
        ∀ k title part date, ["Tue 17 Jul 2018", "Tue 9 Jul 2018"][k]? = some title →
          (split title " ")[1]? = some part →
          readCalendarText
            (dateText (split title " ")[2]? (leadingDigits part) (split title " ")[3]?)
            = some date →
          toLocaleDateString date = toLocaleDateString (mkDate 2018 6 8 10 0 0 0) + 1 →
          (⟨Lambda.mapIndexToBinType k, Lambda.getDueDay (mkDate 2018 6 8 10 0 0 0) date⟩ :
            Lambda.DueBin) ∈ bins) :=
  ⟨⟨by decide, (getDueBins_fails_iff_some_title_malformed readCalendarText
      (mkDate 2018 6 8 10 0 0 0) ["Unknown", "Tue 9 Jul 2018"]).1 (by decide)⟩,
    ⟨by decide, (getDueBins_fails_iff_some_title_malformed readCalendarText
      (mkDate 2018 6 8 10 0 0 0) ["Tue 17 Jul 2018", "Tue 9 Jul 2018"]).2 (by decide)⟩⟩

/-- Claim C8: for bin names `a` and `b` among garden, waste and recycling and a day among today
and tomorrow, `buildMessage` of `src/lambda/index.js` on the two bins `a` then `b`, both due on
that day, returns `a` with its first letter in upper case, " and ", `b` unchanged, and
" bins are being collected ", the day and a full stop. -/
theorem buildMessage_two_bins (a b day : String) (ha : a ∈ Lambda.binTypes)
    (hb : b ∈ Lambda.binTypes) (hday : day = "today" ∨ day = "tomorrow") :
    ∃ first rest, a.data = first :: rest ∧
      Lambda.buildMessage [⟨some a, day⟩, ⟨some b, day⟩] =
        .ok (some (String.mk (first.toUpper :: rest) ++ " and " ++ b ++
          " bins are being collected " ++ day ++ ".")) := by
  simp only [Lambda.binTypes, List.mem_cons, List.mem_singleton, List.not_mem_nil,
    or_false] at ha hb
  rcases ha with rfl | rfl | rfl <;> rcases hb with rfl | rfl | rfl <;>
    rcases hday with rfl | rfl <;> exact ⟨_, _, rfl, by decide⟩

/-- The example of claim C8: garden and recycling due today. -/
theorem buildMessage_two_bins_witness :
    "garden" ∈ Lambda.binTypes ∧ "recycling" ∈ Lambda.binTypes ∧
    ("today" = "today" ∨ "today" = "tomorrow") ∧
    Lambda.buildMessage [⟨some "garden", "today"⟩, ⟨some "recycling", "today"⟩] =
      .ok (some "Garden and recycling bins are being collected today.") :=
  ⟨by decide, by decide, by decide,
    match buildMessage_two_bins "garden" "recycling" "today" (by decide) (by decide)
      (by decide) with
    | ⟨_, _, hdata, hmessage⟩ => by
      cases hdata
      exact hmessage⟩

/-- Claim C9: whatever the engine reads, two titles, split at single spaces, whose pieces at
position 1 have the same leading digits and whose pieces at positions 2 and 3 are the same, get
the same result from `getCollectionDate` of `src/index.js` (the same instant, or the same
failure), and the same dates from `getBinDates` of `src/lambda/index.js`; the piece at position 0,
what follows the digits of piece 1 and the pieces after position 3 play no part. -/
theorem getCollectionDate_depends_on_date_pieces (newDate : String → Option Moment)
    (title1 title2 : String)
    (hday : (split title1 " ")[1]?.map leadingDigits = (split title2 " ")[1]?.map leadingDigits)
    (hmonth : (split title1 " ")[2]? = (split title2 " ")[2]?)
    (hyear : (split title1 " ")[3]? = (split title2 " ")[3]?) :
    Index.getCollectionDate newDate title1 = Index.getCollectionDate newDate title2 ∧
      ∀ today, Lambda.getBinDates newDate today title1 =
        Lambda.getBinDates newDate today title2 := by
  simp only [Index.getCollectionDate, Lambda.getBinDates, hmonth, hyear]
  cases h1 : (split title1 " ")[1]? <;> cases h2 : (split title2 " ")[1]? <;>
    simp_all

/-- Claim C9 at two titles that differ in the piece at position 0, in the suffix of the day and
in a trailing piece, run with the reader of calendar texts: both give 23:00 on 9 July 2018. -/
theorem getCollectionDate_depends_on_date_pieces_witness :
    ((split "Tue 9 Jul 2018" " ")[1]?.map leadingDigits =
      (split "Collection: 9th Jul 2018 fortnightly" " ")[1]?.map leadingDigits) ∧
    ((split "Tue 9 Jul 2018" " ")[2]? = (split "Collection: 9th Jul 2018 fortnightly" " ")[2]?) ∧
    ((split "Tue 9 Jul 2018" " ")[3]? = (split "Collection: 9th Jul 2018 fortnightly" " ")[3]?) ∧
    Index.getCollectionDate readCalendarText "Tue 9 Jul 2018" = .ok (mkDate 2018 6 9 23 0 0 0) ∧
    (Index.getCollectionDate readCalendarText "Tue 9 Jul 2018" =
        Index.getCollectionDate readCalendarText "Collection: 9th Jul 2018 fortnightly" ∧
      ∀ today, Lambda.getBinDates readCalendarText today "Tue 9 Jul 2018" =
        Lambda.getBinDates readCalendarText today "Collection: 9th Jul 2018 fortnightly") :=
  ⟨by decide, by decide, by decide, by decide,
    getCollectionDate_depends_on_date_pieces readCalendarText "Tue 9 Jul 2018"
      "Collection: 9th Jul 2018 fortnightly" (by decide) (by decide) (by decide)⟩

/-- Claim C10 refuted as stated, run with the reader of calendar texts: at 10:00 on 8 July 2018 a
feed of four well-formed titles of which only the fourth is collected the next day gives a list of
one entry whose title is `undefined`, and `buildMessage` of `src/lambda/index.js` throws a
`TypeError` on it; no sentence is returned. -/
theorem buildMessage_throws_on_fourth_channel :
    (∀ title ∈ ["Tue 17 Jul 2018", "Tue 17 Jul 2018", "Tue 17 Jul 2018", "Tue 9 Jul 2018"],
      Lambda.malformed readCalendarText title = false) ∧
    Lambda.getDueBins readCalendarText (mkDate 2018 6 8 10 0 0 0)
      ["Tue 17 Jul 2018", "Tue 17 Jul 2018", "Tue 17 Jul 2018", "Tue 9 Jul 2018"] =
      .ok [⟨none, "tomorrow"⟩] ∧
    Lambda.buildMessage [⟨none, "tomorrow"⟩] = .error .typeError := by
  decide

/-- Claim C10 as amended: in `src/lambda/index.js`, whatever the engine reads, for a feed in which
no title is malformed and any `now`, `getDueBins` returns a list in which every entry has `dueOn`
equal to "today" or "tomorrow"; when the feed has at most three bins (one per bin type of
`mapIndexToBinType`) and the list is not empty, `buildMessage` returns the composed sentence: the
sentence of the bins tagged "today", the sentence of the bins tagged "tomorrow", or, when both
days have bins, the two joined by ". ". -/
theorem getDueBins_labels_today_or_tomorrow (newDate : String → Option Moment) (now : Moment)
    (channel : List String)
    (hwell : ∀ title ∈ channel, Lambda.malformed newDate title = false) :
    ∃ bins, Lambda.getDueBins newDate now channel = .ok bins ∧
      (∀ b ∈ bins, b.dueOn = "today" ∨ b.dueOn = "tomorrow") ∧
      (channel.length ≤ 3 → bins ≠ [] →
        Lambda.buildMessage bins = .ok (some (
          if Lambda.titlesDueOn bins "today" ≠ [] ∧ Lambda.titlesDueOn bins "tomorrow" ≠ [] then
            Lambda.composedSentence (Lambda.titlesDueOn bins "today") "today" ++ ". " ++
              Lambda.composedSentence (Lambda.titlesDueOn bins "tomorrow") "tomorrow"
          else if Lambda.titlesDueOn bins "today" ≠ [] then
            Lambda.composedSentence (Lambda.titlesDueOn bins "today") "today"
          else Lambda.composedSentence (Lambda.titlesDueOn bins "tomorrow") "tomorrow"))) := by
  obtain ⟨bins, hbins⟩ := Lambda.getDueBinsLoop_ok newDate now channel
    (fun t ht => (Lambda.not_malformed_iff_ok newDate now t).mp (hwell t ht)) 0 []
  have hl := Lambda.getDueBins_labels newDate now channel bins hbins
  exact ⟨bins, hbins, hl, fun hlen hne => Lambda.buildMessage_eq bins hne hl
    (Lambda.getDueBins_titles newDate now channel bins hlen hbins)⟩

/-- Claim C10 as amended at 10:00 on 8 July 2018 on a feed of three well-formed titles, run with
the reader of calendar texts. -/
theorem getDueBins_labels_today_or_tomorrow_witness :
    (∀ title ∈ ["Tue 9 Jul 2018", "Tue 17 Jul 2018", "Mon 9th July 2018"],
      Lambda.malformed readCalendarText title = false) ∧
    Lambda.getDueBins readCalendarText (mkDate 2018 6 8 10 0 0 0)
      ["Tue 9 Jul 2018", "Tue 17 Jul 2018", "Mon 9th July 2018"] =
      .ok [⟨some "waste", "tomorrow"⟩, ⟨some "recycling", "tomorrow"⟩] ∧
    Lambda.buildMessage [⟨some "waste", "tomorrow"⟩, ⟨some "recycling", "tomorrow"⟩] =
      .ok (some "Waste and recycling bins are being collected tomorrow.") ∧
    ∃ bins, Lambda.getDueBins readCalendarText (mkDate 2018 6 8 10 0 0 0)
        ["Tue 9 Jul 2018", "Tue 17 Jul 2018", "Mon 9th July 2018"] = .ok bins ∧
      (∀ b ∈ bins, b.dueOn = "today" ∨ b.dueOn = "tomorrow") ∧
      (["Tue 9 Jul 2018", "Tue 17 Jul 2018", "Mon 9th July 2018"].length ≤ 3 → bins ≠ [] →
        Lambda.buildMessage bins = .ok (some (
          if Lambda.titlesDueOn bins "today" ≠ [] ∧ Lambda.titlesDueOn bins "tomorrow" ≠ [] then
            Lambda.composedSentence (Lambda.titlesDueOn bins "today") "today" ++ ". " ++
              Lambda.composedSentence (Lambda.titlesDueOn bins "tomorrow") "tomorrow"
          else if Lambda.titlesDueOn bins "today" ≠ [] then
            Lambda.composedSentence (Lambda.titlesDueOn bins "today") "today"
          else Lambda.composedSentence (Lambda.titlesDueOn bins "tomorrow") "tomorrow"))) :=
  ⟨by decide, by decide, by decide,
    getDueBins_labels_today_or_tomorrow readCalendarText (mkDate 2018 6 8 10 0 0 0)
      ["Tue 9 Jul 2018", "Tue 17 Jul 2018", "Mon 9th July 2018"] (by decide)⟩

end BinBot
